import Mathlib

/-!
Verification of the Adadelta optimizer core
(`tensorflow/python/keras/optimizer_v2/adadelta.py`).

Scalars are modelled as exact rationals (`ℚ`).  The tensor engine is an
external collaborator of this core (spec §1, §6): its elementwise `sqrt`
is therefore an explicit function parameter `sq : ℚ → ℚ` of every kernel
definition; no claim below depends on properties of `sq`.

The four `training_ops` kernels, the `OptimizerV2` base class, and the
slot-store internals are not part of the repository source file; where a
definition models one of those, its doc comment says so and follows the
spec's words.
-/

namespace Adadelta

/-- Scalar kinds a tensor dtype can carry (floating-point only; this
optimizer works on floating-point tensors). -/
inductive ScalarKind where
  | f16
  | bf16
  | f32
  | f64
deriving DecidableEq, Repr

/-- A tensor dtype: a scalar kind plus a reference flag, so that
`base_dtype` (stripping reference-ness, as `var.dtype.base_dtype` does in
the source) is representable. -/
structure DType where
  base : ScalarKind
  isRef : Bool
deriving DecidableEq, Repr

/-- The function `d.base_dtype`: the dtype with the reference flag stripped, mirroring
`dtype.base_dtype` used at every hyperparameter resolution site in the
source. -/
def DType.base_dtype (d : DType) : DType := ⟨d.base, false⟩

/-- Modelled from the spec (§4.2): casting a scalar hyperparameter to a
floating-point precision always succeeds; values in this model are exact
rationals, so the cast is exact. -/
def castTo (_p : DType) (q : ℚ) : ℚ := q

/-- A hyperparameter source: a fixed scalar or a zero-argument dynamic
producer (spec §3, §9: a tagged variant, constant vs. dynamic source). -/
inductive HyperValue where
  | fixed (c : ℚ)
  | dyn (f : Unit → ℚ)

/-- Modelled from the spec (§4.2): `resolve(name, precision)` returns the
hyperparameter's current scalar value cast to `precision`; a fixed scalar
resolves purely, a dynamic producer is invoked once per resolution call. -/
def resolve (h : HyperValue) (p : DType) : ℚ :=
  match h with
  | .fixed c => castTo p c
  | .dyn f => castTo p (f ())

/-- One element of the per-variable state triple: the parameter value and
the two accumulator slots at one tensor position. -/
structure Cell where
  var : ℚ
  accum : ℚ
  accum_update : ℚ
deriving DecidableEq, Repr

/-- Modelled from the spec (§4.3): the elementwise Adadelta recurrence
implemented by the `training_ops.apply_adadelta` kernel family, which is
not in the source file.  Given resolved scalars `lr, rho, eps`:
`accum' = rho*accum + (1-rho)*g^2`,
`update = sqrt(accum_update+eps)/sqrt(accum'+eps)*g`,
`var' = var - lr*update`,
`accum_update' = rho*accum_update + (1-rho)*update^2`. -/
def stepCell (sq : ℚ → ℚ) (lr rho eps : ℚ) (c : Cell) (g : ℚ) : Cell :=
  let accum' := rho * c.accum + (1 - rho) * g ^ 2
  let update := sq (c.accum_update + eps) / sq (accum' + eps) * g
  { var := c.var - lr * update
    accum := accum'
    accum_update := rho * c.accum_update + (1 - rho) * update ^ 2 }

/-- Modelled from the spec (§4.3): the dense kernel applies the recurrence
to every element of the full tensors (state and gradient flattened to
element lists). -/
def apply_adadelta (sq : ℚ → ℚ) (lr rho eps : ℚ)
    (st : List Cell) (g : List ℚ) : List Cell :=
  List.zipWith (stepCell sq lr rho eps) st g

/-- A row-structured state: a list of rows, each row a list of cells. -/
abbrev RowState := List (List Cell)

/-- The dense recurrence applied to one row. -/
def stepRow (sq : ℚ → ℚ) (lr rho eps : ℚ)
    (row : List Cell) (g : List ℚ) : List Cell :=
  List.zipWith (stepCell sq lr rho eps) row g

/-- Modelled from the spec (§4.3): the dense kernel on a row-structured
state applies the recurrence row by row to the full gradient. -/
def apply_adadelta_rows (sq : ℚ → ℚ) (lr rho eps : ℚ)
    (st : RowState) (g : List (List ℚ)) : RowState :=
  List.zipWith (stepRow sq lr rho eps) st g

/-- Modelled from the spec (§4.3): the sparse kernel
(`training_ops.sparse_apply_adadelta`, not in the source file) applies the
recurrence only to the rows named by the gradient's index list, in the
order given, sequentially (each later update reads the results of the
earlier one); rows not named are untouched. -/
def sparse_apply_adadelta (sq : ℚ → ℚ) (lr rho eps : ℚ)
    (st : RowState) (g : List (Nat × List ℚ)) : RowState :=
  g.foldl (fun s ig => s.set ig.1 (stepRow sq lr rho eps (s.getD ig.1 []) ig.2)) st

/-- The dense gradient that is zero everywhere except the rows named by a
sparse gradient, where it takes the sparse values (used to state the
sparse/dense equivalence property, spec §8.2). -/
def padGrad (st : RowState) (g : List (Nat × List ℚ)) : List (List ℚ) :=
  (List.range st.length).map fun i =>
    match g.lookup i with
    | some v => v
    | none => List.replicate (st.getD i []).length 0

/-- A trainable variable, identified by a stable integer id (spec §9), with
a fixed shape and dtype. -/
structure Variable where
  id : Nat
  shape : List Nat
  dtype : DType
deriving DecidableEq, Repr

/-- A tensor value: shape, dtype and flattened element data. -/
structure Tensor where
  shape : List Nat
  dtype : DType
  data : List ℚ
deriving DecidableEq, Repr

/-- Number of elements of a shape. -/
def numel (shape : List Nat) : Nat := shape.foldl (· * ·) 1

/-- Modelled from the spec (§6): the tensor engine's `zeros_like`: a
zero-filled tensor of the variable's shape and dtype. -/
def zerosTensor (v : Variable) : Tensor :=
  ⟨v.shape, v.dtype, List.replicate (numel v.shape) 0⟩

/-- The slot store: a mapping keyed by (variable id, slot name) to the slot
tensor (spec §4.1, §9). -/
abbrev SlotStore := List ((Nat × String) × Tensor)

/-- Modelled from the spec (§4.1): `state.zeros_slot(v, name)`, which is
not in the source file: creates, if absent, a zero-filled slot tensor of
the variable's shape and dtype; idempotent if the slot already exists. -/
def zeros_slot (st : SlotStore) (v : Variable) (name : String) : SlotStore :=
  match st.lookup (v.id, name) with
  | some _ => st
  | none => st ++ [((v.id, name), zerosTensor v)]

/-- Modelled from the spec (§4.1): `state.get_slot(v, name)` returns the
existing slot tensor, or `none` (MissingSlotError) if never created. -/
def get_slot (st : SlotStore) (v : Variable) (name : String) : Option Tensor :=
  st.lookup (v.id, name)

/-- Source method `_create_vars`: for each variable in the list, create
the zero slots `accum` and `accum_update`. -/
def create_vars (st : SlotStore) (var_list : List Variable) : SlotStore :=
  var_list.foldl (fun s v => zeros_slot (zeros_slot s v "accum") v "accum_update") st

/-- The optimizer: `__init__` stores the three hyperparameters; the
`use_locking` flag comes from the base optimizer, modelled from the spec
(§4.4: a per-optimizer flag set once at construction and never changed). -/
structure Optimizer where
  learning_rate : HyperValue
  rho : HyperValue
  epsilon : HyperValue
  name : String
  use_locking : Bool

/-- Source constructor `__init__(learning_rate, rho, epsilon, name)`: stores the given
hyperparameter values unchanged via `_set_hyper`; performs no validation. -/
def init (learning_rate : HyperValue) (rho : HyperValue) (epsilon : HyperValue)
    (name : String) (use_locking : Bool) : Optimizer :=
  { learning_rate := learning_rate
    rho := rho
    epsilon := epsilon
    name := name
    use_locking := use_locking }

/-- The record of one kernel invocation as built by a dispatch method: the
three resolved scalars, the log of hyperparameter resolutions performed
(name and requested precision, in call order), and the locking flag passed
to the kernel. -/
structure Invocation where
  lr : ℚ
  rho : ℚ
  eps : ℚ
  resolutions : List (String × DType)
  use_locking : Bool
deriving DecidableEq, Repr

/-- The hyperparameter resolutions a dispatch method performs, mirroring
the three `state.get_hyper(name, var.dtype.base_dtype)` calls, in source
order, of every kernel variant. -/
def hyperResolutions (v : Variable) : List (String × DType) :=
  [("learning_rate", v.dtype.base_dtype),
   ("rho", v.dtype.base_dtype),
   ("epsilon", v.dtype.base_dtype)]

/-- Builds the invocation common to all four dispatch methods: each of the
three hyperparameters is resolved once at `var.dtype.base_dtype`, and the
optimizer's `use_locking` flag is passed through. -/
def mkInvocation (o : Optimizer) (v : Variable) : Invocation :=
  { lr := resolve o.learning_rate v.dtype.base_dtype
    rho := resolve o.rho v.dtype.base_dtype
    eps := resolve o.epsilon v.dtype.base_dtype
    resolutions := hyperResolutions v
    use_locking := o.use_locking }

/-- Source method `_apply_dense`: fetches the two slots, resolves the three
hyperparameters at the variable's base dtype, and invokes
`training_ops.apply_adadelta` with `use_locking=self._use_locking`.
Returns `none` (MissingSlotError) if a slot was never created. -/
def apply_dense (o : Optimizer) (st : SlotStore) (_grad : Tensor)
    (v : Variable) : Option (Invocation × Tensor × Tensor) :=
  match get_slot st v "accum", get_slot st v "accum_update" with
  | some accum, some accum_update => some (mkInvocation o v, accum, accum_update)
  | _, _ => none

/-- Source method `_resource_apply_dense`: same resolutions and flag, mutating through
the resource handles. -/
def resource_apply_dense (o : Optimizer) (st : SlotStore) (_grad : Tensor)
    (v : Variable) : Option (Invocation × Tensor × Tensor) :=
  match get_slot st v "accum", get_slot st v "accum_update" with
  | some accum, some accum_update => some (mkInvocation o v, accum, accum_update)
  | _, _ => none

/-- A sparse gradient: an ordered list of row indices paired with a
row-values tensor (spec §3). -/
structure SparseGrad where
  indices : List Nat
  values : Tensor
deriving DecidableEq, Repr

/-- Source method `_apply_sparse`: fetches the two slots, resolves the three
hyperparameters at the variable's base dtype, and invokes
`training_ops.sparse_apply_adadelta` with `grad.values`, `grad.indices`
and `use_locking=self._use_locking`. -/
def apply_sparse (o : Optimizer) (st : SlotStore) (_grad : SparseGrad)
    (v : Variable) : Option (Invocation × Tensor × Tensor) :=
  match get_slot st v "accum", get_slot st v "accum_update" with
  | some accum, some accum_update => some (mkInvocation o v, accum, accum_update)
  | _, _ => none

/-- Source method `_resource_apply_sparse`: same resolutions and flag, taking the values
and indices as separate arguments, through the resource handles. -/
def resource_apply_sparse (o : Optimizer) (st : SlotStore) (_grad : Tensor)
    (v : Variable) (_indices : List Nat) : Option (Invocation × Tensor × Tensor) :=
  match get_slot st v "accum", get_slot st v "accum_update" with
  | some accum, some accum_update => some (mkInvocation o v, accum, accum_update)
  | _, _ => none

/-- Modelled from the spec (§6): the base class's `get_config`, which is
not in the source file; the serialization contract exposes exactly the
three hyperparameter keys, so the base contributes none. -/
def super_get_config (_o : Optimizer) : List (String × HyperValue) := []

/-- Modelled from the spec (§6): `_serialize_hyperparameter`, not in the
source file: a fixed scalar serializes to its primitive literal, a dynamic
source to a serialized representation of itself. -/
def serialize_hyperparameter (h : HyperValue) : HyperValue := h

/-- Source method `get_config`: the base config updated with the three hyperparameter
entries, as in the source. -/
def get_config (o : Optimizer) : List (String × HyperValue) :=
  super_get_config o ++
    [("learning_rate", serialize_hyperparameter o.learning_rate),
     ("rho", serialize_hyperparameter o.rho),
     ("epsilon", serialize_hyperparameter o.epsilon)]

/-- Modelled from the spec (§6): the inverse constructor call — reading
the three keys back out of a config mapping and passing them to the
constructor (missing keys fall back to the constructor defaults
`learning_rate=0.001`, `rho=0.95`, `epsilon=1e-8`). -/
def from_config (cfg : List (String × HyperValue)) : Optimizer :=
  init ((cfg.lookup "learning_rate").getD (.fixed (1 / 1000)))
    ((cfg.lookup "rho").getD (.fixed (19 / 20)))
    ((cfg.lookup "epsilon").getD (.fixed (1 / 100000000)))
    "Adadelta" false

/-- The numeric update an optimizer produces through the dense kernel on a
given flattened state and gradient, at a given precision: the observable
update behaviour of the optimizer (used for the config round-trip). -/
def denseBehaviour (o : Optimizer) (sq : ℚ → ℚ) (p : DType)
    (st : List Cell) (g : List ℚ) : List Cell :=
  apply_adadelta sq (resolve o.learning_rate p) (resolve o.rho p)
    (resolve o.epsilon p) st g

/-- The errors a kernel application can signal (spec §4.3, §7). -/
inductive KernelError where
  | shapeMismatch
  | dtypeMismatch
deriving DecidableEq, Repr

/-- Modelled from the spec (§4.3): the checks a dense kernel application
performs — ShapeMismatchError if the gradient's shape is incompatible with
the variable's shape, DtypeMismatchError if its numeric precision differs
from the variable's. -/
def dense_errors (varShape : List Nat) (varDtype : DType) (g : Tensor) :
    List KernelError :=
  (if g.shape = varShape then [] else [KernelError.shapeMismatch]) ++
    (if g.dtype.base = varDtype.base then [] else [KernelError.dtypeMismatch])

/-- Modelled from the spec (§4.3): the dense kernel as executed against
the in-place state: on a failed check the errors are signalled and `var`,
`accum`, `accum_update` (the cell triple) are left unchanged; otherwise
the recurrence is applied. -/
def dense_in_place (sq : ℚ → ℚ) (lr rho eps : ℚ) (varShape : List Nat)
    (varDtype : DType) (st : List Cell) (g : Tensor) :
    List KernelError × List Cell :=
  match dense_errors varShape varDtype g with
  | [] => ([], apply_adadelta sq lr rho eps st g.data)
  | errs => (errs, st)

/-- The row values of a sparse gradient: a declared per-row (trailing)
shape, a dtype, and the list of value rows (one per index). -/
structure SparseValues where
  rowShape : List Nat
  dtype : DType
  rows : List (List ℚ)
deriving DecidableEq, Repr

/-- Modelled from the spec (§4.3): the checks a sparse kernel application
performs — ShapeMismatchError if the row-value shape is incompatible with
the variable's shape (trailing shape differs, or row count differs from
the index count), DtypeMismatchError if the numeric precision differs. -/
def sparse_errors (varShape : List Nat) (varDtype : DType)
    (indices : List Nat) (vals : SparseValues) : List KernelError :=
  (if vals.rowShape = varShape.drop 1 ∧ vals.rows.length = indices.length
    then [] else [KernelError.shapeMismatch]) ++
    (if vals.dtype.base = varDtype.base then [] else [KernelError.dtypeMismatch])

/-- Modelled from the spec (§4.3): the sparse kernel as executed against
the in-place row state: on a failed check the errors are signalled and all
rows are left unchanged; otherwise the indexed rows are updated. -/
def sparse_in_place (sq : ℚ → ℚ) (lr rho eps : ℚ) (varShape : List Nat)
    (varDtype : DType) (st : RowState) (indices : List Nat)
    (vals : SparseValues) : List KernelError × RowState :=
  match sparse_errors varShape varDtype indices vals with
  | [] => ([], sparse_apply_adadelta sq lr rho eps st (indices.zip vals.rows))
  | errs => (errs, st)

/-! ### Helper lemmas -/

/-- A zero gradient element leaves `var` untouched and decays both
accumulators by `rho`, whatever `sq` returns. -/
theorem stepCell_zero (sq : ℚ → ℚ) (lr rho eps : ℚ) (c : Cell) :
    stepCell sq lr rho eps c 0 = ⟨c.var, rho * c.accum, rho * c.accum_update⟩ := by
  simp [stepCell]

/-- The sparse kernel preserves the number of rows. -/
theorem sparse_apply_length (sq : ℚ → ℚ) (lr rho eps : ℚ)
    (g : List (Nat × List ℚ)) (st : RowState) :
    (sparse_apply_adadelta sq lr rho eps st g).length = st.length := by
  induction g generalizing st with
  | nil => rfl
  | cons p t ih =>
    rw [show sparse_apply_adadelta sq lr rho eps st (p :: t) =
      sparse_apply_adadelta sq lr rho eps
        (st.set p.1 (stepRow sq lr rho eps (st.getD p.1 []) p.2)) t from rfl]
    rw [ih _]
    simp

/-- A row whose index is not in the sparse gradient is untouched by the
sparse kernel. -/
theorem sparse_apply_getElem?_not_mem (sq : ℚ → ℚ) (lr rho eps : ℚ)
    (g : List (Nat × List ℚ)) (st : RowState) (i : Nat)
    (h : i ∉ g.map Prod.fst) :
    (sparse_apply_adadelta sq lr rho eps st g)[i]? = st[i]? := by
  induction g generalizing st with
  | nil => rfl
  | cons p t ih =>
    simp only [List.map_cons, List.mem_cons, not_or] at h
    rw [show sparse_apply_adadelta sq lr rho eps st (p :: t) =
      sparse_apply_adadelta sq lr rho eps
        (st.set p.1 (stepRow sq lr rho eps (st.getD p.1 []) p.2)) t from rfl]
    rw [ih _ h.2, List.getElem?_set_ne (Ne.symm h.1)]

/-- With pairwise-distinct indices, the row at an index present in the
sparse gradient is exactly the single-row dense update of its old value at
the paired gradient row. -/
theorem sparse_apply_getElem?_mem (sq : ℚ → ℚ) (lr rho eps : ℚ)
    (g : List (Nat × List ℚ)) (st : RowState) (j : Nat) (v : List ℚ)
    (hnd : (g.map Prod.fst).Nodup) (hmem : (j, v) ∈ g) (hj : j < st.length) :
    (sparse_apply_adadelta sq lr rho eps st g)[j]? =
      some (stepRow sq lr rho eps (st.getD j []) v) := by
  induction g generalizing st with
  | nil => cases hmem
  | cons p t ih =>
    rw [List.map_cons, List.nodup_cons] at hnd
    rw [show sparse_apply_adadelta sq lr rho eps st (p :: t) =
      sparse_apply_adadelta sq lr rho eps
        (st.set p.1 (stepRow sq lr rho eps (st.getD p.1 []) p.2)) t from rfl]
    rcases List.mem_cons.mp hmem with heq | htl
    · have h1 : p.1 = j := by rw [← heq]
      have h2 : p.2 = v := by rw [← heq]
      subst h1; subst h2
      rw [sparse_apply_getElem?_not_mem sq lr rho eps t _ p.1 hnd.1]
      rw [List.getElem?_set_self (by simpa using hj)]
    · have hne : p.1 ≠ j := by
        intro hc
        exact hnd.1 (hc ▸ (List.mem_map.mpr ⟨(j, v), htl, rfl⟩))
      have := ih (st.set p.1 (stepRow sq lr rho eps (st.getD p.1 []) p.2))
        hnd.2 htl (by simpa using hj)
      rw [this]
      have : (st.set p.1 (stepRow sq lr rho eps (st.getD p.1 []) p.2)).getD j [] =
          st.getD j [] := by
        simp [List.getD_eq_getElem?_getD, List.getElem?_set_ne hne]
      rw [this]

/-- With pairwise-distinct keys, `lookup` finds the value paired with any
present key. -/
theorem lookup_of_nodup_keys (g : List (Nat × List ℚ)) (j : Nat) (v : List ℚ)
    (hnd : (g.map Prod.fst).Nodup) (hmem : (j, v) ∈ g) :
    g.lookup j = some v := by
  induction g with
  | nil => cases hmem
  | cons p t ih =>
    rw [List.map_cons, List.nodup_cons] at hnd
    rcases List.mem_cons.mp hmem with heq | htl
    · have h1 : p.1 = j := by rw [← heq]
      have h2 : p.2 = v := by rw [← heq]
      obtain ⟨a, b⟩ := p
      simp only at h1 h2
      subst h1; subst h2
      exact List.lookup_cons_self
    · have hne : j ≠ p.1 := by
        intro hc
        exact hnd.1 (hc ▸ (List.mem_map.mpr ⟨(j, v), htl, rfl⟩))
      obtain ⟨a, b⟩ := p
      rw [List.lookup_cons]
      simp only at hne
      simp [beq_eq_false_iff_ne.mpr hne]
      exact ih hnd.2 htl

/-- The padded gradient `padGrad` has one gradient row per state row. -/
theorem padGrad_length (st : RowState) (g : List (Nat × List ℚ)) :
    (padGrad st g).length = st.length := by
  simp [padGrad]

/-- The row of `padGrad` at an in-range index. -/
theorem padGrad_getElem? (st : RowState) (g : List (Nat × List ℚ)) (i : Nat)
    (hi : i < st.length) :
    (padGrad st g)[i]? = some (match g.lookup i with
      | some v => v
      | none => List.replicate (st.getD i []).length 0) := by
  simp [padGrad, List.getElem?_map, List.getElem?_range hi]

/-- Creating a slot makes `get_slot` return it: the pre-existing tensor if
there was one, a fresh zero tensor otherwise. -/
theorem get_slot_zeros_slot_self (st : SlotStore) (v : Variable) (name : String) :
    get_slot (zeros_slot st v name) v name =
      some ((get_slot st v name).getD (zerosTensor v)) := by
  unfold zeros_slot get_slot
  cases h : st.lookup (v.id, name) with
  | some t => simp [h]
  | none => simp [List.lookup_append, h]

/-- Creating a slot under one key leaves every other key's slot alone. -/
theorem get_slot_zeros_slot_ne (st : SlotStore) (v w : Variable)
    (name m : String) (h : (v.id, name) ≠ (w.id, m)) :
    get_slot (zeros_slot st w m) v name = get_slot st v name := by
  unfold zeros_slot get_slot
  cases hw : st.lookup (w.id, m) with
  | some t => rfl
  | none =>
    rw [List.lookup_append]
    rw [List.lookup_cons]
    simp [beq_eq_false_iff_ne.mpr h]

/-- Applying `create_vars` over variables whose ids all differ from `v.id` leaves
`v`'s slots alone. -/
theorem get_slot_create_vars_not_mem (l : List Variable) (st : SlotStore)
    (v : Variable) (name : String) (h : v.id ∉ l.map Variable.id) :
    get_slot (create_vars st l) v name = get_slot st v name := by
  induction l generalizing st with
  | nil => rfl
  | cons w t ih =>
    simp only [List.map_cons, List.mem_cons, not_or] at h
    rw [show create_vars st (w :: t) =
      create_vars (zeros_slot (zeros_slot st w "accum") w "accum_update") t from rfl]
    rw [ih _ h.2]
    rw [get_slot_zeros_slot_ne _ _ _ _ _ (by simp [h.1]),
      get_slot_zeros_slot_ne _ _ _ _ _ (by simp [h.1])]

/-- After `create_vars` on a list of variables with pairwise-distinct ids,
both slots of every listed variable whose slots were absent before are the
zero tensors. -/
theorem get_slot_create_vars_mem (l : List Variable) (st : SlotStore)
    (v : Variable) (hnd : (l.map Variable.id).Nodup) (hv : v ∈ l)
    (h1 : get_slot st v "accum" = none)
    (h2 : get_slot st v "accum_update" = none) :
    get_slot (create_vars st l) v "accum" = some (zerosTensor v) ∧
      get_slot (create_vars st l) v "accum_update" = some (zerosTensor v) := by
  induction l generalizing st with
  | nil => cases hv
  | cons w t ih =>
    rw [List.map_cons, List.nodup_cons] at hnd
    rw [show create_vars st (w :: t) =
      create_vars (zeros_slot (zeros_slot st w "accum") w "accum_update") t from rfl]
    rcases List.mem_cons.mp hv with heq | htl
    · subst heq
      have ga : get_slot (zeros_slot (zeros_slot st v "accum") v "accum_update")
          v "accum" = some (zerosTensor v) := by
        rw [get_slot_zeros_slot_ne _ _ _ _ _ (by simp),
          get_slot_zeros_slot_self, h1]
        rfl
      have gu : get_slot (zeros_slot (zeros_slot st v "accum") v "accum_update")
          v "accum_update" = some (zerosTensor v) := by
        rw [get_slot_zeros_slot_self,
          get_slot_zeros_slot_ne _ _ _ _ _ (by simp), h2]
        rfl
      constructor
      · rw [get_slot_create_vars_not_mem _ _ _ _ hnd.1, ga]
      · rw [get_slot_create_vars_not_mem _ _ _ _ hnd.1, gu]
    · have hne : v.id ≠ w.id := by
        intro hc
        exact hnd.1 (hc ▸ (List.mem_map.mpr ⟨v, htl, rfl⟩))
      refine ih _ hnd.2 htl ?_ ?_
      · rw [get_slot_zeros_slot_ne _ _ _ _ _ (by simp [hne]),
          get_slot_zeros_slot_ne _ _ _ _ _ (by simp [hne]), h1]
      · rw [get_slot_zeros_slot_ne _ _ _ _ _ (by simp [hne]),
          get_slot_zeros_slot_ne _ _ _ _ _ (by simp [hne]), h2]

/-- A `zeros_slot` call on an absent key appends exactly one entry. -/
theorem zeros_slot_length_absent (st : SlotStore) (v : Variable) (name : String)
    (h : get_slot st v name = none) :
    (zeros_slot st v name).length = st.length + 1 := by
  unfold zeros_slot
  unfold get_slot at h
  rw [h]
  simp

/-- Applying `create_vars` from a store holding none of the listed variables' slots,
with pairwise-distinct ids, adds exactly two slots per variable. -/
theorem create_vars_length (l : List Variable) (st : SlotStore)
    (hnd : (l.map Variable.id).Nodup)
    (habs : ∀ w ∈ l, get_slot st w "accum" = none ∧
      get_slot st w "accum_update" = none) :
    (create_vars st l).length = st.length + 2 * l.length := by
  induction l generalizing st with
  | nil => rfl
  | cons w t ih =>
    rw [List.map_cons, List.nodup_cons] at hnd
    rw [show create_vars st (w :: t) =
      create_vars (zeros_slot (zeros_slot st w "accum") w "accum_update") t from rfl]
    have hw := habs w (List.mem_cons_self _ _)
    have hu : get_slot (zeros_slot st w "accum") w "accum_update" = none := by
      rw [get_slot_zeros_slot_ne _ _ _ _ _ (by simp), hw.2]
    rw [ih _ hnd.2]
    · rw [zeros_slot_length_absent _ _ _ hu, zeros_slot_length_absent _ _ _ hw.1]
      simp [List.length_cons]
      ring
    · intro u hu'
      have hne : u.id ≠ w.id := by
        intro hc
        exact hnd.1 (hc ▸ (List.mem_map.mpr ⟨u, hu', rfl⟩))
      have h1 := (habs u (List.mem_cons_of_mem _ hu')).1
      have h2 := (habs u (List.mem_cons_of_mem _ hu')).2
      constructor
      · rw [get_slot_zeros_slot_ne _ _ _ _ _ (by simp [hne]),
          get_slot_zeros_slot_ne _ _ _ _ _ (by simp [hne]), h1]
      · rw [get_slot_zeros_slot_ne _ _ _ _ _ (by simp [hne]),
          get_slot_zeros_slot_ne _ _ _ _ _ (by simp [hne]), h2]

/-- A successful `_apply_dense` dispatch builds exactly the common
invocation. -/
theorem apply_dense_inv (o : Optimizer) (st : SlotStore) (grad : Tensor)
    (v : Variable) (x : Invocation × Tensor × Tensor)
    (h : apply_dense o st grad v = some x) : x.1 = mkInvocation o v := by
  unfold apply_dense at h
  cases ha : get_slot st v "accum" <;> cases hu : get_slot st v "accum_update" <;>
    rw [ha, hu] at h <;> simp at h
  rw [← h]

/-- A successful `_resource_apply_dense` dispatch builds exactly the
common invocation. -/
theorem resource_apply_dense_inv (o : Optimizer) (st : SlotStore) (grad : Tensor)
    (v : Variable) (x : Invocation × Tensor × Tensor)
    (h : resource_apply_dense o st grad v = some x) : x.1 = mkInvocation o v := by
  unfold resource_apply_dense at h
  cases ha : get_slot st v "accum" <;> cases hu : get_slot st v "accum_update" <;>
    rw [ha, hu] at h <;> simp at h
  rw [← h]

/-- A successful `_apply_sparse` dispatch builds exactly the common
invocation. -/
theorem apply_sparse_inv (o : Optimizer) (st : SlotStore) (grad : SparseGrad)
    (v : Variable) (x : Invocation × Tensor × Tensor)
    (h : apply_sparse o st grad v = some x) : x.1 = mkInvocation o v := by
  unfold apply_sparse at h
  cases ha : get_slot st v "accum" <;> cases hu : get_slot st v "accum_update" <;>
    rw [ha, hu] at h <;> simp at h
  rw [← h]

/-- A successful `_resource_apply_sparse` dispatch builds exactly the
common invocation. -/
theorem resource_apply_sparse_inv (o : Optimizer) (st : SlotStore) (grad : Tensor)
    (v : Variable) (indices : List Nat) (x : Invocation × Tensor × Tensor)
    (h : resource_apply_sparse o st grad v indices = some x) :
    x.1 = mkInvocation o v := by
  unfold resource_apply_sparse at h
  cases ha : get_slot st v "accum" <;> cases hu : get_slot st v "accum_update" <;>
    rw [ha, hu] at h <;> simp at h
  rw [← h]

/-- The hyperparameter-resolution contract of one apply call against a
variable `v`: each of the three hyperparameters is resolved exactly once,
every resolution at `v`'s base dtype. -/
def resolvedOncePerApply (v : Variable) (inv : Invocation) : Prop :=
  (inv.resolutions.map Prod.fst).count "learning_rate" = 1 ∧
  (inv.resolutions.map Prod.fst).count "rho" = 1 ∧
  (inv.resolutions.map Prod.fst).count "epsilon" = 1 ∧
  ∀ r ∈ inv.resolutions, r.2 = v.dtype.base_dtype

/-- The common invocation satisfies the resolution contract. -/
theorem mkInvocation_resolved (o : Optimizer) (v : Variable) :
    resolvedOncePerApply v (mkInvocation o v) := by
  have hmap : (mkInvocation o v).resolutions.map Prod.fst =
      ["learning_rate", "rho", "epsilon"] := rfl
  refine ⟨by rw [hmap]; decide, by rw [hmap]; decide, by rw [hmap]; decide, ?_⟩
  intro r hr
  simp only [mkInvocation, hyperResolutions, List.mem_cons,
    List.not_mem_nil, or_false] at hr
  rcases hr with h | h | h <;> rw [h]

/-! ### Claim theorems -/

/-- C5: every single apply call, in each of the four kernel variants,
resolves each of `learning_rate`, `rho`, `epsilon` exactly once, every
resolution at the target variable's base dtype; and a fixed-scalar
hyperparameter resolves to the exact constant cast to that precision —
resolution is a pure function, so the value is independent of how many
times it is called. -/
theorem hyper_resolution_per_apply (o : Optimizer) (st : SlotStore)
    (grad : Tensor) (sgrad : SparseGrad) (v : Variable) (indices : List Nat)
    (x1 x2 x3 x4 : Invocation × Tensor × Tensor)
    (h1 : apply_dense o st grad v = some x1)
    (h2 : resource_apply_dense o st grad v = some x2)
    (h3 : apply_sparse o st sgrad v = some x3)
    (h4 : resource_apply_sparse o st grad v indices = some x4) :
    resolvedOncePerApply v x1.1 ∧ resolvedOncePerApply v x2.1 ∧
    resolvedOncePerApply v x3.1 ∧ resolvedOncePerApply v x4.1 ∧
    ∀ (c : ℚ) (p : DType), resolve (.fixed c) p = castTo p c := by
  rw [apply_dense_inv o st grad v x1 h1,
    resource_apply_dense_inv o st grad v x2 h2,
    apply_sparse_inv o st sgrad v x3 h3,
    resource_apply_sparse_inv o st grad v indices x4 h4]
  exact ⟨mkInvocation_resolved o v, mkInvocation_resolved o v,
    mkInvocation_resolved o v, mkInvocation_resolved o v, fun _ _ => rfl⟩

/-- Witness for C5: a one-variable store with both slots created. -/
theorem hyper_resolution_per_apply_witness :
    ((mkInvocation (init (.fixed 1) (.fixed 1) (.fixed 1) "Adadelta" false)
        ⟨0, [1], ⟨.f32, false⟩⟩).resolutions.map Prod.fst).count "learning_rate" = 1 :=
  (hyper_resolution_per_apply
    (init (.fixed 1) (.fixed 1) (.fixed 1) "Adadelta" false)
    (create_vars [] [⟨0, [1], ⟨.f32, false⟩⟩])
    ⟨[1], ⟨.f32, false⟩, [0]⟩ ⟨[0], ⟨[1], ⟨.f32, false⟩, [0]⟩⟩
    ⟨0, [1], ⟨.f32, false⟩⟩ [0]
    (mkInvocation (init (.fixed 1) (.fixed 1) (.fixed 1) "Adadelta" false)
      ⟨0, [1], ⟨.f32, false⟩⟩, zerosTensor ⟨0, [1], ⟨.f32, false⟩⟩,
      zerosTensor ⟨0, [1], ⟨.f32, false⟩⟩)
    (mkInvocation (init (.fixed 1) (.fixed 1) (.fixed 1) "Adadelta" false)
      ⟨0, [1], ⟨.f32, false⟩⟩, zerosTensor ⟨0, [1], ⟨.f32, false⟩⟩,
      zerosTensor ⟨0, [1], ⟨.f32, false⟩⟩)
    (mkInvocation (init (.fixed 1) (.fixed 1) (.fixed 1) "Adadelta" false)
      ⟨0, [1], ⟨.f32, false⟩⟩, zerosTensor ⟨0, [1], ⟨.f32, false⟩⟩,
      zerosTensor ⟨0, [1], ⟨.f32, false⟩⟩)
    (mkInvocation (init (.fixed 1) (.fixed 1) (.fixed 1) "Adadelta" false)
      ⟨0, [1], ⟨.f32, false⟩⟩, zerosTensor ⟨0, [1], ⟨.f32, false⟩⟩,
      zerosTensor ⟨0, [1], ⟨.f32, false⟩⟩)
    (by rfl) (by rfl) (by rfl) (by rfl)).1.1

/-- C9: all four kernel-invocation paths pass the optimizer-level
`use_locking` flag, the one fixed at construction, to the kernel; the
optimizer value is immutable data in this model, so every apply call in
any sequence observes the identical value. -/
theorem use_locking_constant (lr rho eps : HyperValue) (name : String)
    (lock : Bool) (st : SlotStore) (grad : Tensor) (sgrad : SparseGrad)
    (v : Variable) (indices : List Nat)
    (x1 x2 x3 x4 : Invocation × Tensor × Tensor)
    (h1 : apply_dense (init lr rho eps name lock) st grad v = some x1)
    (h2 : resource_apply_dense (init lr rho eps name lock) st grad v = some x2)
    (h3 : apply_sparse (init lr rho eps name lock) st sgrad v = some x3)
    (h4 : resource_apply_sparse (init lr rho eps name lock) st grad v indices = some x4) :
    x1.1.use_locking = lock ∧ x2.1.use_locking = lock ∧
    x3.1.use_locking = lock ∧ x4.1.use_locking = lock ∧
    (init lr rho eps name lock).use_locking = lock := by
  rw [apply_dense_inv _ st grad v x1 h1,
    resource_apply_dense_inv _ st grad v x2 h2,
    apply_sparse_inv _ st sgrad v x3 h3,
    resource_apply_sparse_inv _ st grad v indices x4 h4]
  exact ⟨rfl, rfl, rfl, rfl, rfl⟩

/-- Witness for C9 with `use_locking = true`. -/
theorem use_locking_constant_witness :
    (mkInvocation (init (.fixed 1) (.fixed 1) (.fixed 1) "Adadelta" true)
      ⟨0, [1], ⟨.f32, false⟩⟩).use_locking = true :=
  (use_locking_constant (.fixed 1) (.fixed 1) (.fixed 1) "Adadelta" true
    (create_vars [] [⟨0, [1], ⟨.f32, false⟩⟩])
    ⟨[1], ⟨.f32, false⟩, [0]⟩ ⟨[0], ⟨[1], ⟨.f32, false⟩, [0]⟩⟩
    ⟨0, [1], ⟨.f32, false⟩⟩ [0]
    (mkInvocation (init (.fixed 1) (.fixed 1) (.fixed 1) "Adadelta" true)
      ⟨0, [1], ⟨.f32, false⟩⟩, zerosTensor ⟨0, [1], ⟨.f32, false⟩⟩,
      zerosTensor ⟨0, [1], ⟨.f32, false⟩⟩)
    (mkInvocation (init (.fixed 1) (.fixed 1) (.fixed 1) "Adadelta" true)
      ⟨0, [1], ⟨.f32, false⟩⟩, zerosTensor ⟨0, [1], ⟨.f32, false⟩⟩,
      zerosTensor ⟨0, [1], ⟨.f32, false⟩⟩)
    (mkInvocation (init (.fixed 1) (.fixed 1) (.fixed 1) "Adadelta" true)
      ⟨0, [1], ⟨.f32, false⟩⟩, zerosTensor ⟨0, [1], ⟨.f32, false⟩⟩,
      zerosTensor ⟨0, [1], ⟨.f32, false⟩⟩)
    (mkInvocation (init (.fixed 1) (.fixed 1) (.fixed 1) "Adadelta" true)
      ⟨0, [1], ⟨.f32, false⟩⟩, zerosTensor ⟨0, [1], ⟨.f32, false⟩⟩,
      zerosTensor ⟨0, [1], ⟨.f32, false⟩⟩)
    (by rfl) (by rfl) (by rfl) (by rfl)).1

/-- C1: one dense kernel application transforms the state triple
elementwise into `accum' = rho*accum + (1-rho)*g^2`,
`update = sqrt(accum_update+eps)/sqrt(accum'+eps)*g`, `var' = var -
lr*update`, `accum_update' = rho*accum_update + (1-rho)*update^2` (the
in-place mutation is modelled by returning the new triple; both
`_apply_dense` and `_resource_apply_dense` dispatch to this same
recurrence). -/
theorem dense_kernel_elementwise (sq : ℚ → ℚ) (lr rho eps : ℚ)
    (st : List Cell) (g : List ℚ) (hlen : g.length = st.length)
    (i : Nat) (hi : i < st.length) :
    (apply_adadelta sq lr rho eps st g).getD i ⟨0, 0, 0⟩ =
      (let c := st.getD i ⟨0, 0, 0⟩
       let gi := g.getD i 0
       let accum' := rho * c.accum + (1 - rho) * gi ^ 2
       let update := sq (c.accum_update + eps) / sq (accum' + eps) * gi
       { var := c.var - lr * update
         accum := accum'
         accum_update := rho * c.accum_update + (1 - rho) * update ^ 2 }) := by
  have hg : i < g.length := by omega
  simp only [apply_adadelta, List.getD_eq_getElem?_getD, List.getElem?_zipWith,
    List.getElem?_eq_getElem hi, List.getElem?_eq_getElem hg]
  rfl

/-- Witness for C1 at `sq = id`, `lr = 1`, `rho = 1/2`, `eps = 1`,
state `⟨1, 2, 3⟩`, gradient `2`. -/
theorem dense_kernel_elementwise_witness :
    (apply_adadelta (fun x => x) 1 (1/2) 1 [⟨1, 2, 3⟩] [2]).getD 0 ⟨0, 0, 0⟩ =
      ⟨-1, 3, 7/2⟩ := by
  rw [dense_kernel_elementwise (fun x => x) 1 (1/2) 1 [⟨1, 2, 3⟩] [2]
    (by decide) 0 (by decide)]
  norm_num [Cell.mk.injEq]

/-- C3: applying an all-zero gradient leaves every `var` component
unchanged while both accumulators take their decay-only values
`rho*accum` and `rho*accum_update`. -/
theorem zero_gradient_decay (sq : ℚ → ℚ) (lr rho eps : ℚ) (st : List Cell) :
    apply_adadelta sq lr rho eps st (List.replicate st.length 0) =
      st.map fun c => ⟨c.var, rho * c.accum, rho * c.accum_update⟩ := by
  induction st with
  | nil => rfl
  | cons c t ih =>
    simp only [List.length_cons, List.replicate_succ]
    rw [show apply_adadelta sq lr rho eps (c :: t) (0 :: List.replicate t.length 0) =
      stepCell sq lr rho eps c 0 ::
        apply_adadelta sq lr rho eps t (List.replicate t.length 0) from rfl]
    rw [stepCell_zero, ih, List.map_cons]

/-- C7: in the sparse kernel a repeated row index is updated sequentially
in the order given — the second update reads the first update's result —
and this differs from merging the two gradient rows into one summed
update, as the final concrete disequality shows. -/
theorem sparse_duplicate_indices_sequential (sq : ℚ → ℚ) (lr rho eps : ℚ)
    (st : RowState) (i : Nat) (g1 g2 : List ℚ) (hi : i < st.length) :
    (sparse_apply_adadelta sq lr rho eps st [(i, g1), (i, g2)] =
      st.set i (stepRow sq lr rho eps (stepRow sq lr rho eps (st.getD i []) g1) g2)) ∧
    (∀ l1 l2 : List (Nat × List ℚ),
      sparse_apply_adadelta sq lr rho eps st (l1 ++ l2) =
        sparse_apply_adadelta sq lr rho eps
          (sparse_apply_adadelta sq lr rho eps st l1) l2) ∧
    sparse_apply_adadelta (fun x => x) 1 0 0 [[⟨0, 1, 1⟩]] [(0, [1]), (0, [1])] ≠
      sparse_apply_adadelta (fun x => x) 1 0 0 [[⟨0, 1, 1⟩]] [(0, [2])] := by
  refine ⟨?_, ?_, by norm_num [sparse_apply_adadelta, stepRow, stepCell, Cell.mk.injEq]⟩
  · have hset : (st.set i (stepRow sq lr rho eps (st.getD i []) g1)).getD i [] =
        stepRow sq lr rho eps (st.getD i []) g1 := by
      simp [List.getD_eq_getElem?_getD,
        List.getElem?_set_self (show i < st.length from hi)]
    rw [show sparse_apply_adadelta sq lr rho eps st [(i, g1), (i, g2)] =
      ((st.set i (stepRow sq lr rho eps (st.getD i []) g1)).set i
        (stepRow sq lr rho eps
          ((st.set i (stepRow sq lr rho eps (st.getD i []) g1)).getD i []) g2)) from rfl]
    rw [hset, List.set_set]
  · intro l1 l2
    simp [sparse_apply_adadelta, List.foldl_append]

/-- Witness for C7: one row, index 0 repeated. -/
theorem sparse_duplicate_indices_sequential_witness :
    sparse_apply_adadelta (fun x => x) 1 (1/2) 1 [[⟨1, 1, 1⟩]] [(0, [1]), (0, [1])] =
      ([[(⟨1, 1, 1⟩ : Cell)]] : RowState).set 0
        (stepRow (fun x => x) 1 (1/2) 1
          (stepRow (fun x => x) 1 (1/2) 1
            (([[(⟨1, 1, 1⟩ : Cell)]] : RowState).getD 0 []) [1]) [1]) :=
  (sparse_duplicate_indices_sequential (fun x => x) 1 (1/2) 1
    [[⟨1, 1, 1⟩]] 0 [1] [1] (by decide)).1

/-- C10: construction performs no range validation — for any rational
hyperparameters, including negative learning rates, `rho` outside `[0,1]`
and negative `epsilon`, the constructor succeeds (it is a total function)
and stores the given values unchanged, and later resolution returns
exactly those values. -/
theorem init_no_validation (lr rho eps : ℚ) (name : String) (lock : Bool) :
    (init (.fixed lr) (.fixed rho) (.fixed eps) name lock).learning_rate = .fixed lr ∧
    (init (.fixed lr) (.fixed rho) (.fixed eps) name lock).rho = .fixed rho ∧
    (init (.fixed lr) (.fixed rho) (.fixed eps) name lock).epsilon = .fixed eps ∧
    ∀ p : DType,
      resolve (init (.fixed lr) (.fixed rho) (.fixed eps) name lock).learning_rate p = lr ∧
      resolve (init (.fixed lr) (.fixed rho) (.fixed eps) name lock).rho p = rho ∧
      resolve (init (.fixed lr) (.fixed rho) (.fixed eps) name lock).epsilon p = eps :=
  ⟨rfl, rfl, rfl, fun _ => ⟨rfl, rfl, rfl⟩⟩

/-- C6: `get_config` returns a flat mapping with exactly the keys
`learning_rate`, `rho`, `epsilon`; for fixed scalars the stored constants
come back exactly, and feeding the mapping to the inverse constructor
call reconstructs an optimizer with identical update behaviour on
identical inputs. -/
theorem get_config_round_trip (a b c : ℚ) (name : String) (lock : Bool) :
    ((get_config (init (.fixed a) (.fixed b) (.fixed c) name lock)).map Prod.fst =
      ["learning_rate", "rho", "epsilon"]) ∧
    (get_config (init (.fixed a) (.fixed b) (.fixed c) name lock)).lookup
      "learning_rate" = some (.fixed a) ∧
    (get_config (init (.fixed a) (.fixed b) (.fixed c) name lock)).lookup
      "rho" = some (.fixed b) ∧
    (get_config (init (.fixed a) (.fixed b) (.fixed c) name lock)).lookup
      "epsilon" = some (.fixed c) ∧
    ∀ (sq : ℚ → ℚ) (p : DType) (st : List Cell) (g : List ℚ),
      denseBehaviour
        (from_config (get_config (init (.fixed a) (.fixed b) (.fixed c) name lock)))
        sq p st g =
      denseBehaviour (init (.fixed a) (.fixed b) (.fixed c) name lock) sq p st g :=
  ⟨rfl, rfl, rfl, rfl, fun _ _ _ _ => rfl⟩

/-- C8: a kernel application returns no success value beyond the mutated
state; it signals ShapeMismatchError exactly when the gradient's shape
(resp. the row-value shape, for the sparse form) is incompatible with the
variable's shape, DtypeMismatchError exactly when the numeric precisions
differ, and on any failure the state triple is unchanged. -/
theorem kernel_error_contract (sq : ℚ → ℚ) (lr rho eps : ℚ)
    (varShape : List Nat) (varDtype : DType) (st : List Cell) (g : Tensor)
    (rst : RowState) (indices : List Nat) (vals : SparseValues) :
    (KernelError.shapeMismatch ∈ dense_errors varShape varDtype g ↔
      g.shape ≠ varShape) ∧
    (KernelError.dtypeMismatch ∈ dense_errors varShape varDtype g ↔
      g.dtype.base ≠ varDtype.base) ∧
    (dense_errors varShape varDtype g ≠ [] →
      (dense_in_place sq lr rho eps varShape varDtype st g).2 = st) ∧
    (dense_errors varShape varDtype g = [] →
      (dense_in_place sq lr rho eps varShape varDtype st g).2 =
        apply_adadelta sq lr rho eps st g.data) ∧
    (KernelError.shapeMismatch ∈ sparse_errors varShape varDtype indices vals ↔
      ¬(vals.rowShape = varShape.drop 1 ∧ vals.rows.length = indices.length)) ∧
    (KernelError.dtypeMismatch ∈ sparse_errors varShape varDtype indices vals ↔
      vals.dtype.base ≠ varDtype.base) ∧
    (sparse_errors varShape varDtype indices vals ≠ [] →
      (sparse_in_place sq lr rho eps varShape varDtype rst indices vals).2 = rst) ∧
    (sparse_errors varShape varDtype indices vals = [] →
      (sparse_in_place sq lr rho eps varShape varDtype rst indices vals).2 =
        sparse_apply_adadelta sq lr rho eps rst (indices.zip vals.rows)) := by
  refine ⟨?_, ?_, ?_, ?_, ?_, ?_, ?_, ?_⟩
  · by_cases hs : g.shape = varShape <;>
      by_cases hd : g.dtype.base = varDtype.base <;> simp [dense_errors, hs, hd]
  · by_cases hs : g.shape = varShape <;>
      by_cases hd : g.dtype.base = varDtype.base <;> simp [dense_errors, hs, hd]
  · intro h
    cases herr : dense_errors varShape varDtype g with
    | nil => exact absurd herr h
    | cons e t => simp [dense_in_place, herr]
  · intro h
    simp [dense_in_place, h]
  · by_cases hs : vals.rowShape = varShape.drop 1 ∧ vals.rows.length = indices.length <;>
      by_cases hd : vals.dtype.base = varDtype.base <;> simp [sparse_errors, hs, hd]
  · by_cases hs : vals.rowShape = varShape.drop 1 ∧ vals.rows.length = indices.length <;>
      by_cases hd : vals.dtype.base = varDtype.base <;> simp [sparse_errors, hs, hd]
  · intro h
    cases herr : sparse_errors varShape varDtype indices vals with
    | nil => exact absurd herr h
    | cons e t => simp [sparse_in_place, herr]
  · intro h
    simp [sparse_in_place, h]

/-- Witness for C8: with a variable of shape `[2]` and a gradient of shape
`[3]`, the dense kernel fails and leaves the state unchanged. -/
theorem kernel_error_contract_witness :
    (dense_in_place (fun x => x) 1 1 1 [2] ⟨.f32, false⟩ [⟨1, 2, 3⟩]
      ⟨[3], ⟨.f32, false⟩, [0, 0, 0]⟩).2 = [⟨1, 2, 3⟩] :=
  (kernel_error_contract (fun x => x) 1 1 1 [2] ⟨.f32, false⟩ [⟨1, 2, 3⟩]
    ⟨[3], ⟨.f32, false⟩, [0, 0, 0]⟩ [] [] ⟨[], ⟨.f32, false⟩, []⟩).2.2.1
    (by decide)

/-- C4: after `_create_vars` on a variable list with pairwise-distinct
ids, exactly two slots per variable exist, named `accum` and
`accum_update`, and `get_slot` returns for each listed variable an
all-zero tensor of the variable's shape and dtype for both names. -/
theorem slot_creation (var_list : List Variable) (v : Variable)
    (hnd : (var_list.map Variable.id).Nodup) (hv : v ∈ var_list) :
    get_slot (create_vars [] var_list) v "accum" = some (zerosTensor v) ∧
    get_slot (create_vars [] var_list) v "accum_update" = some (zerosTensor v) ∧
    (zerosTensor v).shape = v.shape ∧
    (zerosTensor v).dtype = v.dtype ∧
    (∀ q ∈ (zerosTensor v).data, q = 0) ∧
    (create_vars [] var_list).length = 2 * var_list.length := by
  have h := get_slot_create_vars_mem var_list [] v hnd hv rfl rfl
  refine ⟨h.1, h.2, rfl, rfl, ?_, ?_⟩
  · intro q hq
    exact List.eq_of_mem_replicate hq
  · have := create_vars_length var_list [] hnd (fun w _ => ⟨rfl, rfl⟩)
    simpa using this

/-- Witness for C4: a single variable of shape `[2]`. -/
theorem slot_creation_witness :
    get_slot (create_vars [] [⟨0, [2], ⟨.f32, false⟩⟩]) ⟨0, [2], ⟨.f32, false⟩⟩
      "accum" = some (zerosTensor ⟨0, [2], ⟨.f32, false⟩⟩) ∧
    (create_vars [] [⟨0, [2], ⟨.f32, false⟩⟩]).length = 2 :=
  ⟨(slot_creation [⟨0, [2], ⟨.f32, false⟩⟩] ⟨0, [2], ⟨.f32, false⟩⟩
      (by decide) (by decide)).1,
    (slot_creation [⟨0, [2], ⟨.f32, false⟩⟩] ⟨0, [2], ⟨.f32, false⟩⟩
      (by decide) (by decide)).2.2.2.2.2⟩

/-- The dense row kernel acts rowwise: row `i` of the result is the
single-row update of row `i` of the input at row `i` of the gradient. -/
theorem dense_rows_getElem? (sq : ℚ → ℚ) (lr rho eps : ℚ) (st : RowState)
    (g : List (List ℚ)) (i : Nat) (hi : i < st.length)
    (hlen : g.length = st.length) :
    (apply_adadelta_rows sq lr rho eps st g)[i]? =
      some (stepRow sq lr rho eps (st.getD i []) (g.getD i [])) := by
  have hg : i < g.length := by omega
  simp only [apply_adadelta_rows, List.getElem?_zipWith,
    List.getElem?_eq_getElem hi, List.getElem?_eq_getElem hg,
    List.getD_eq_getElem?_getD]
  rfl

/-- C2 (amended): with pairwise-distinct row indices all in range, the
sparse kernel produces on the indexed rows results identical to the dense
kernel applied to the gradient padded with zeros outside those rows, and
leaves every other row identical to its pre-update state under the SPARSE
kernel.  (The original claim also asserted the dense kernel preserves the
non-indexed rows; that is false — the dense kernel decays their
accumulators — see the counterexample.) -/
theorem sparse_dense_row_equivalence (sq : ℚ → ℚ) (lr rho eps : ℚ)
    (st : RowState) (g : List (Nat × List ℚ))
    (hnd : (g.map Prod.fst).Nodup) (hidx : ∀ p ∈ g, p.1 < st.length) :
    (∀ p ∈ g, (sparse_apply_adadelta sq lr rho eps st g)[p.1]? =
      (apply_adadelta_rows sq lr rho eps st (padGrad st g))[p.1]?) ∧
    (∀ i, i ∉ g.map Prod.fst →
      (sparse_apply_adadelta sq lr rho eps st g)[i]? = st[i]?) := by
  constructor
  · intro p hp
    obtain ⟨j, v⟩ := p
    have hj : j < st.length := hidx _ hp
    rw [sparse_apply_getElem?_mem sq lr rho eps g st j v hnd hp hj]
    rw [dense_rows_getElem? sq lr rho eps st (padGrad st g) j hj
      (padGrad_length st g)]
    have hpad : (padGrad st g).getD j [] = v := by
      rw [List.getD_eq_getElem?_getD, padGrad_getElem? st g j hj,
        lookup_of_nodup_keys g j v hnd hp]
      rfl
    rw [hpad]
  · intro i hi
    exact sparse_apply_getElem?_not_mem sq lr rho eps g st i hi

/-- Counterexample to C2 as stated: two one-element rows with
`accum = 1`, `rho = 1/2`, a sparse gradient touching only row 0 and the
corresponding zero-padded dense gradient `[[1], [0]]`.  The sparse kernel
leaves row 1 identical to its pre-update state, but the dense kernel does
not: it decays row 1's accumulator from `1` to `1/2`, so the rows outside
the index set are NOT byte-identical to their pre-update state "under
both kernels". -/
theorem sparse_dense_equivalence_counterexample :
    (sparse_apply_adadelta (fun x => x) 1 (1/2) 0
        [[⟨0, 1, 0⟩], [⟨0, 1, 0⟩]] [(0, [1])])[1]? =
      ([[⟨0, 1, 0⟩], [⟨0, 1, 0⟩]] : RowState)[1]? ∧
    ¬ ((apply_adadelta_rows (fun x => x) 1 (1/2) 0
        [[⟨0, 1, 0⟩], [⟨0, 1, 0⟩]] [[1], [0]])[1]? =
      ([[⟨0, 1, 0⟩], [⟨0, 1, 0⟩]] : RowState)[1]?) := by
  constructor
  · rfl
  · intro h
    simp only [apply_adadelta_rows, stepRow, stepCell, List.zipWith_cons_cons,
      List.zipWith_nil_right, List.getElem?_cons_succ, List.getElem?_cons_zero,
      Option.some.injEq, List.cons.injEq, Cell.mk.injEq, and_true] at h
    norm_num at h

/-- Witness for C2 (amended): two rows, sparse gradient on row 0 only. -/
theorem sparse_dense_row_equivalence_witness :
    (sparse_apply_adadelta (fun x => x) 1 (1/2) 1
        [[⟨1, 2, 3⟩], [⟨4, 5, 6⟩]] [(0, [7])])[0]? =
      (apply_adadelta_rows (fun x => x) 1 (1/2) 1 [[⟨1, 2, 3⟩], [⟨4, 5, 6⟩]]
        (padGrad [[⟨1, 2, 3⟩], [⟨4, 5, 6⟩]] [(0, [7])]))[0]? ∧
    (sparse_apply_adadelta (fun x => x) 1 (1/2) 1
        [[⟨1, 2, 3⟩], [⟨4, 5, 6⟩]] [(0, [7])])[1]? =
      ([[⟨1, 2, 3⟩], [⟨4, 5, 6⟩]] : RowState)[1]? :=
  ⟨(sparse_dense_row_equivalence (fun x => x) 1 (1/2) 1
      [[⟨1, 2, 3⟩], [⟨4, 5, 6⟩]] [(0, [7])] (by simp)
      (by intro p hp; rw [List.mem_singleton] at hp; subst hp; decide)).1
      (0, [7]) (List.mem_singleton_self _),
    (sparse_dense_row_equivalence (fun x => x) 1 (1/2) 1
      [[⟨1, 2, 3⟩], [⟨4, 5, 6⟩]] [(0, [7])] (by simp)
      (by intro p hp; rw [List.mem_singleton] at hp; subst hp; decide)).2
      1 (by simp)⟩

end Adadelta
